import Mathlib

/-!
Verification development for the india-breaking-news-x-bot repository.

The tweet pipeline of `src/ai_writer.py`, `src/news_client.py`,
`src/x_client.py` and `src/main.py` is embedded shallowly: Python strings
become `List Char`, the Gemini/X network collaborators become explicit
oracles (a list of per-attempt outcomes for generation, an index-to-outcome
function for publishing), and a Python exception becomes an `Option`/pair
value recording the failure point.  Every definition follows the source
line by line; regular expressions used by the source are implemented as
explicit scanning functions with the same leftmost-greedy semantics.
-/

/-- Python strings are embedded as lists of characters. -/
abbrev Str := List Char

/-- The characters Python `str.strip()` and the regex class `\s` treat as
whitespace for the ASCII text this bot manipulates: space, tab, newline,
carriage return, vertical tab and form feed. -/
def isPySpace (c : Char) : Bool :=
  c = ' ' || c = '\t' || c = '\n' || c = '\r' || c = '\x0b' || c = '\x0c'

/-- Embedding of Python `text.lstrip()` (also the left half of `.strip()`). -/
def lstrip (l : Str) : Str := l.dropWhile isPySpace

/-- Embedding of Python `text.rstrip()` (`ai_writer.py` line 45). -/
def rstrip (l : Str) : Str := l.rdropWhile isPySpace

/-- Embedding of Python `text.strip()`. -/
def pyStrip (l : Str) : Str := rstrip (lstrip l)

/-- Scanner state machine for `re.sub(r"<[^>]+>", "", text)`
(`ai_writer.py` line 41).  `buf` holds the pending characters since an
unresolved `<` (in reverse); on `>` a buffer holding at least one middle
character is a complete tag and is discarded, while a bare `<>` is kept,
exactly as the regex (which requires one or more non-`>` characters)
behaves under leftmost scanning. -/
def stripTagsGo : Str → Str → Str
  | [], buf => buf.reverse
  | c :: rest, buf =>
    if buf.isEmpty then
      if c = '<' then stripTagsGo rest [c] else c :: stripTagsGo rest buf
    else
      if c = '>' then
        if buf = ['<'] then '<' :: '>' :: stripTagsGo rest []
        else stripTagsGo rest []
      else stripTagsGo rest (c :: buf)

/-- Embedding of `re.sub(r"<[^>]+>", "", text)` from `truncate_to_limit`. -/
def stripTags (l : Str) : Str := stripTagsGo l []

/-- `MAX_TWEET_CHARS = 260` (`ai_writer.py` line 34). -/
def MAX_TWEET_CHARS : Nat := 260

/-- The three dots `truncate_to_limit` appends after cutting. -/
def dots : Str := ['.', '.', '.']

/-- Embedding of `truncate_to_limit` (`ai_writer.py` lines 37-45): strip
simple HTML tags, strip surrounding whitespace, and if the result is longer
than `limit` cut it to `limit - 3` characters, right-strip the cut and
append `"..."`.  Every caller in the source uses the default
`limit = MAX_TWEET_CHARS = 260`; the `text is None` guard is vacuous here
because the embedding's strings are total values. -/
def truncate_to_limit (text : Str) (limit : Nat) : Str :=
  let t := pyStrip (stripTags text)
  if t.length ≤ limit then t
  else rstrip (t.take (limit - 3)) ++ dots

/-- Scanner for `re.sub(r"\s+", " ", text)` (`ai_writer.py` line 51): the
flag records whether the previous character was whitespace, so each
whitespace run emits a single space. -/
def collapseGo : Str → Bool → Str
  | [], _ => []
  | c :: rest, prevWs =>
    if isPySpace c then
      if prevWs then collapseGo rest true else ' ' :: collapseGo rest true
    else c :: collapseGo rest false

/-- Embedding of `_clean_spaces` (`ai_writer.py` lines 48-52): collapse
whitespace runs to single spaces, then strip. -/
def _clean_spaces (text : Str) : Str :=
  if text.isEmpty then [] else pyStrip (collapseGo text false)

/-- Matcher for `re.sub(r"^Tweet\s*\d+:\s*", "", txt, flags=re.IGNORECASE)`
(`ai_writer.py` line 242): the word `Tweet` case-insensitively, optional
whitespace, one or more digits, a colon, optional whitespace.  Returns the
remainder after the matched label, or `none` when the label is absent. -/
def matchTweetLabel (l : Str) : Option Str :=
  match l with
  | c1 :: c2 :: c3 :: c4 :: c5 :: rest =>
    if (c1 = 'T' || c1 = 't') && (c2 = 'W' || c2 = 'w') && (c3 = 'E' || c3 = 'e')
        && (c4 = 'E' || c4 = 'e') && (c5 = 'T' || c5 = 't') then
      let r1 := rest.dropWhile isPySpace
      let ds := r1.dropWhile Char.isDigit
      if ds.length < r1.length then
        match ds with
        | d :: r2 => if d = ':' then some (r2.dropWhile isPySpace) else none
        | [] => none
      else none
    else none
  | _ => none

/-- Embedding of the `Tweet <n>:` label strip (`ai_writer.py` line 242). -/
def stripTweetLabel (l : Str) : Str := (matchTweetLabel l).getD l

/-- Matcher for `re.sub(r"^\d+\.\s*", "", txt)` (`ai_writer.py` line 243):
one or more digits, a period, optional whitespace. -/
def matchNumLabel (l : Str) : Option Str :=
  let ds := l.dropWhile Char.isDigit
  if ds.length < l.length then
    match ds with
    | d :: r => if d = '.' then some (r.dropWhile isPySpace) else none
    | [] => none
  else none

/-- Embedding of the `<n>.` label strip (`ai_writer.py` line 243). -/
def stripNumLabel (l : Str) : Str := (matchNumLabel l).getD l

/-- The per-candidate cleaning pipeline the loop body of
`_split_tweets_from_response` applies to every segment (`ai_writer.py`
lines 241-245): strip, drop a leading `Tweet <n>:` label, drop a leading
`<n>.` label, collapse whitespace, truncate to the tweet limit.  The spec
names this pipeline `TweetFormatter.clean`. -/
def cleanCandidate (part : Str) : Str :=
  truncate_to_limit (_clean_spaces (stripNumLabel (stripTweetLabel (pyStrip part)))) MAX_TWEET_CHARS

/-- Tail matcher for the delimiter regex `\n\s*---\s*\n` of
`_split_tweets_from_response` (`ai_writer.py` line 238): after `---`, the
greedy `\s*` followed by `\n` matches up to and including the last newline
of the following whitespace run (backtracking from the maximal run).
`best` remembers the remainder just after the last newline seen so far. -/
def matchTailGo : Str → Option Str → Option Str
  | [], best => best
  | c :: rest, best =>
    if isPySpace c then matchTailGo rest (if c = '\n' then some rest else best)
    else best

/-- Try to match the delimiter regex `\n\s*---\s*\n` at the head of `s`,
returning the remainder after the match: a newline, maximal whitespace
(backtracking cannot help because `-` is not whitespace), the literal
`---`, then whitespace up to a final newline. -/
def matchDelim : Str → Option Str
  | '\n' :: rest =>
    match rest.dropWhile isPySpace with
    | '-' :: '-' :: '-' :: rest2 => matchTailGo rest2 none
    | _ => none
  | _ => none

/-- Leftmost non-overlapping scan of `re.split(r"\n\s*---\s*\n", s)`:
`cur` accumulates the current segment in reverse, `acc` the finished
segments.  `fuel` bounds the recursion; every step consumes at least one
character, so `fuel = s.length` (as `splitDelim` passes) never runs out. -/
def splitGo (fuel : Nat) (s : Str) (cur : Str) (acc : List Str) : List Str :=
  match fuel, s with
  | _, [] => acc ++ [cur.reverse]
  | 0, s => acc ++ [cur.reverse ++ s]
  | fuel + 1, c :: rest =>
    match matchDelim (c :: rest) with
    | some rem => splitGo fuel rem [] (acc ++ [cur.reverse])
    | none => splitGo fuel rest (c :: cur) acc

/-- Embedding of `re.split(r"\n\s*---\s*\n", s)` (`ai_writer.py` line 238). -/
def splitDelim (s : Str) : List Str := splitGo s.length s [] []

/-- The filler tweet `_split_tweets_from_response` pads with
(`ai_writer.py` line 250). -/
def fillerTweet : Str :=
  truncate_to_limit ("More updates on this story soon. #India #News").data MAX_TWEET_CHARS

/-- The cleaned list the loop of `_split_tweets_from_response` builds
(`ai_writer.py` lines 239-247): each `---`-separated part of the stripped
content is cleaned, and parts that clean to empty are dropped. -/
def cleanedOf (content : Str) : List Str :=
  ((splitDelim (pyStrip content)).map cleanCandidate).filter (fun t => !t.isEmpty)

/-- Embedding of `_split_tweets_from_response` (`ai_writer.py` lines
231-252): empty content short-circuits to `[]`; otherwise the cleaned
segments are padded at the end with the filler tweet until
`expected_count` (the `while` loop) and the first `expected_count` are
kept. -/
def _split_tweets_from_response (content : Str) (expected_count : Nat) : List Str :=
  if content.isEmpty then []
  else
    let cleaned := cleanedOf content
    (cleaned ++ List.replicate (expected_count - cleaned.length) fillerTweet).take expected_count

/-- Embedding of `FALLBACK_THREAD` (`ai_writer.py` lines 255-261).  The
source file is stored with a double-encoded bell emoji and em dash, so the
Python strings literally contain the characters `ðŸ””`
and `â€”`; they are reproduced code point for code point. -/
def FALLBACK_THREAD : List Str :=
  [ ("ðŸ”” Breaking: We are monitoring a developing story. More verified updates soon. #India #News").data,
    ("We are following official sources and will share key facts when available.").data,
    ("We\x27ll summarise verified impact and what it means for citizens & policy.").data,
    ("If you have trusted sources, reply with links â€” we will review and cite them.").data,
    ("Follow for real-time, verified updates. We avoid rumours. #TrustworthyNews").data ]

/-- An article dict as simplified by `news_client.fetch_top_headlines`
(`news_client.py` lines 88-98): every field defaults to the empty string,
and `sourceName` stands for `article["source"]["name"]`. -/
structure Article where
  title : Str
  description : Str
  url : Str
  sourceName : Str
  publishedAt : Str
  deriving DecidableEq

/-- Embedding of `_call_gemini_try_variants` (`ai_writer.py` lines
126-228).  The generation backend is an oracle: one `Option Str` per
attempted call variant (`none` models a raised exception, `some text` a
response whose extracted text is `text`).  The source returns the first
truthy extracted text, treats a falsy (empty) extraction as a failure and
moves on, and raises the last error when every attempt fails (`none`
here). -/
def _call_gemini_try_variants : List (Option Str) → Option Str
  | [] => none
  | attempt :: rest =>
    match attempt with
    | some text => if text.isEmpty then _call_gemini_try_variants rest else some text
    | none => _call_gemini_try_variants rest

/-- Embedding of `generate_thread_for_big_story` (`ai_writer.py` lines
264-317).  The article's fields are read only to build the prompt, which
influences nothing but the backend oracle (universally quantified in the
theorems); on any generation failure the constant `FALLBACK_THREAD` is
returned, otherwise the response is split into 5 tweets. -/
def generate_thread_for_big_story (attempts : List (Option Str)) (big_story : Article) :
    List Str :=
  match _call_gemini_try_variants attempts with
  | none => FALLBACK_THREAD
  | some content => _split_tweets_from_response content 5

/-- Embedding of `generate_short_tweets_for_supporting_stories`
(`ai_writer.py` lines 320-371): empty input or a non-positive budget gives
`[]`; a generation failure gives `[]` (soft failure); otherwise the
response is split into `max_tweets` tweets. -/
def generate_short_tweets_for_supporting_stories (attempts : List (Option Str))
    (supporting_stories : List Article) (max_tweets : Nat) : List Str :=
  if supporting_stories.isEmpty || max_tweets == 0 then []
  else
    match _call_gemini_try_variants attempts with
    | none => []
    | some content => _split_tweets_from_response content max_tweets

/-- The comparison `sorted(articles, key=publishedAt, reverse=True)` sorts
by (`news_client.py` lines 141-145): article `x` precedes `y` when `y`'s
timestamp is at most `x`'s in the lexicographic string order (Python's
`str` comparison); the sort is stable, and `List.insertionSort` with this
relation reproduces stable descending order. -/
def pubGE (x y : Article) : Prop := y.publishedAt ≤ x.publishedAt

instance : DecidableRel pubGE := fun x y => inferInstanceAs (Decidable (_ ≤ _))

instance : IsTotal Article pubGE := ⟨fun a b => le_total b.publishedAt a.publishedAt⟩

instance : IsTrans Article pubGE := ⟨fun _ _ _ hab hbc => le_trans hbc hab⟩

/-- The supporting-story loop of `select_big_and_supporting_stories`
(`news_client.py` lines 154-170): stop at 3 entries; skip articles with a
blank title or description; accept an article from an unseen non-empty
source (remembering the source), or from a seen/empty source only while
fewer than 2 entries are chosen. -/
def pickSupporting : List Article → List Article → List Str → List Article
  | [], supp, _ => supp
  | a :: rest, supp, seen =>
    if 3 ≤ supp.length then supp
    else if (pyStrip a.title).isEmpty || (pyStrip a.description).isEmpty then
      pickSupporting rest supp seen
    else if ¬a.sourceName.isEmpty ∧ a.sourceName ∉ seen then
      pickSupporting rest (supp ++ [a]) (a.sourceName :: seen)
    else if supp.length < 2 then pickSupporting rest (supp ++ [a]) seen
    else pickSupporting rest supp seen

/-- Embedding of `select_big_and_supporting_stories` (`news_client.py`
lines 110-182): `none` models the `ValueError` on an empty list; otherwise
the articles are stably sorted by timestamp descending, the first becomes
the big story, the loop picks supporting stories from the rest, and an
empty pick falls back to the next two most recent (`sorted_articles[1:3]`). -/
def select_big_and_supporting_stories (articles : List Article) :
    Option (Article × List Article) :=
  match List.insertionSort pubGE articles with
  | [] => none
  | big :: rest =>
    let supp := pickSupporting rest [] [big.sourceName]
    some (big, if supp.isEmpty then rest.take 2 else supp)

/-- The posting loop of `post_thread` (`x_client.py` lines 98-117).  The
publishing backend is an oracle from the call's sequence number to its
outcome (`some id` for a 200/201 response carrying a tweet id, `none` for
a raised `ValueError`); the i-th call posts `tweets[i]` as a reply to the
previous id.  Returns the ids acknowledged before any failure (the posts
the outside world has seen, which a raised exception does not undo)
together with the failing call index, if any. -/
def post_thread_go (backend : Nat → Option Str) :
    List Str → Nat → List Str → List Str × Option Nat
  | [], _, tweet_ids => (tweet_ids, none)
  | _ :: rest, i, tweet_ids =>
    match backend i with
    | none => (tweet_ids, some i)
    | some tid => post_thread_go backend rest (i + 1) (tweet_ids ++ [tid])

/-- Embedding of `post_thread` (`x_client.py` lines 79-121): `none` models
the `ValueError("No tweets to post")` on empty input; otherwise the loop
posts every tweet in order and stops at the first failing call. -/
def post_thread (backend : Nat → Option Str) (tweets : List Str) :
    Option (List Str × Option Nat) :=
  if tweets.isEmpty then none
  else some (post_thread_go backend tweets 0 [])

/-- The standalone posting loop of `main.run` step 7 (`main.py` lines
86-90): each short tweet is posted with no reply linkage; `post_tweet` has
no per-iteration error handling there, so the first failing call raises
out of the loop (aborting the run), leaving the ids posted so far
published.  Same oracle convention as `post_thread_go`. -/
def run_post_short_loop (backend : Nat → Option Str) :
    List Str → Nat → List Str → List Str × Option Nat
  | [], _, posted => (posted, none)
  | _ :: rest, i, posted =>
    match backend i with
    | none => (posted, some i)
    | some tid => run_post_short_loop backend rest (i + 1) (posted ++ [tid])

/-- Concrete article with the earlier timestamp from the spec's example
(title `A`, 10:00). -/
def artA : Article := ⟨("A").data, [], [], [], ("2024-01-01T10:00:00Z").data⟩

/-- Concrete article with the later timestamp from the spec's example
(title `B`, 12:00). -/
def artB : Article := ⟨("B").data, [], [], [], ("2024-01-01T12:00:00Z").data⟩

/-- A concrete article with every field non-empty, used as a generic test
input. -/
def artX : Article := ⟨("T").data, ("D").data, ("u").data, ("S").data, ("2024").data⟩

/-- A backend oracle on which all four call variants of
`_call_gemini_try_variants` raise. -/
def fourFails : List (Option Str) := [none, none, none, none]

/-- A 307-character input whose 257th character is a space, exercising the
`rstrip` inside `truncate_to_limit`. -/
def demoLong : Str := List.replicate 256 'a' ++ [' '] ++ List.replicate 50 'b'

/-- A concrete successful generation response holding a single segment. -/
def demoResp : Str := ("Short update on the first story. #India").data

/-- A publishing oracle whose second call (index 1) fails and whose other
calls return the id `t`. -/
def bFail1 : Nat → Option Str := fun i => if i = 1 then none else some ['t']

/-- A publishing oracle agreeing with `bFail1` on calls 0 and 1 but
returning a different id on call 2 — used to show call 2 is never made. -/
def bFail1Alt : Nat → Option Str :=
  fun i => if i = 1 then none else if i = 2 then some ['z'] else some ['t']

/-- The selection contract of claim C6 at a given input: selection
succeeds, the chosen lead is one of the articles, its timestamp is
lexicographically maximal, and the lead does not occur among the
supporting stories. -/
def selGood (articles : List Article) : Prop :=
  match select_big_and_supporting_stories articles with
  | none => False
  | some (lead, supp) =>
    lead ∈ articles ∧ (∀ a ∈ articles, a.publishedAt ≤ lead.publishedAt) ∧ lead ∉ supp

/-- Every whitespace character of the string is a plain space — the shape
`_clean_spaces` leaves its output in. -/
def wsOnlySpace (l : Str) : Prop := ∀ c ∈ l, isPySpace c = true → c = ' '

/-- No two adjacent characters are both whitespace — the collapsed shape
`_clean_spaces` leaves its output in. -/
def noAdjWs (l : Str) : Prop :=
  List.Chain' (fun a b => ¬(isPySpace a = true ∧ isPySpace b = true)) l

theorem call_gemini_some_not_empty (attempts : List (Option Str)) (s : Str)
    (h : _call_gemini_try_variants attempts = some s) : s.isEmpty = false := by
  induction attempts with
  | nil => simp [_call_gemini_try_variants] at h
  | cons a rest ih =>
    cases a with
    | none => exact ih (by simpa [_call_gemini_try_variants] using h)
    | some text =>
      by_cases ht : text.isEmpty = true
      · exact ih (by simpa [_call_gemini_try_variants, ht] using h)
      · have : text = s := by simpa [_call_gemini_try_variants, ht] using h
        simpa [← this] using ht

theorem mem_cleanedOf_not_empty (c : Str) (t : Str) (h : t ∈ cleanedOf c) :
    t.isEmpty = false := by
  have := List.of_mem_filter h
  simpa using this

theorem split_tweets_length_le (c : Str) (e : Nat) :
    (_split_tweets_from_response c e).length ≤ e := by
  by_cases hc : c.isEmpty = true
  · simp [_split_tweets_from_response, hc]
  · simp [_split_tweets_from_response, hc, List.length_take]

theorem split_tweets_length_eq (c : Str) (e : Nat) (hc : c.isEmpty = false) :
    (_split_tweets_from_response c e).length = e := by
  simp only [_split_tweets_from_response, hc, Bool.false_eq_true, if_false,
    List.length_take, List.length_append, List.length_replicate]
  omega

theorem split_tweets_getElem_filler (c : Str) (e i : Nat) (hc : c.isEmpty = false)
    (hlen : (cleanedOf c).length ≤ i) (hi : i < e) :
    (_split_tweets_from_response c e)[i]? = some fillerTweet := by
  have h1 : (cleanedOf c ++ List.replicate (e - (cleanedOf c).length) fillerTweet)[i]? =
      some fillerTweet := by
    rw [List.getElem?_append_right hlen, List.getElem?_replicate]
    have : i - (cleanedOf c).length < e - (cleanedOf c).length := by omega
    simp [this]
  simp only [_split_tweets_from_response, hc, Bool.false_eq_true, if_false,
    List.getElem?_take, hi, if_true, h1]

theorem mem_split_tweets_not_empty (c : Str) (e : Nat) (t : Str)
    (h : t ∈ _split_tweets_from_response c e) : t.isEmpty = false := by
  by_cases hc : c.isEmpty = true
  · simp [_split_tweets_from_response, hc] at h
  · simp only [_split_tweets_from_response, hc, Bool.false_eq_true, if_false] at h
    have h2 := List.take_subset _ _ h
    rcases List.mem_append.mp h2 with h3 | h3
    · exact mem_cleanedOf_not_empty c t h3
    · rw [List.eq_of_mem_replicate h3]; decide

/-- C1: for every backend behaviour (valid, malformed or empty responses,
or exceptions on every attempt) and every article, however empty its
fields, `generate_thread_for_big_story` returns exactly 5 tweets, all of
them non-empty, and (being a total function of the oracle) never raises. -/
theorem C1_generate_thread_total (attempts : List (Option Str)) (big : Article) :
    (generate_thread_for_big_story attempts big).length = 5 ∧
      ∀ t ∈ generate_thread_for_big_story attempts big, t.isEmpty = false := by
  unfold generate_thread_for_big_story
  cases h : _call_gemini_try_variants attempts with
  | none => exact ⟨by decide, by decide⟩
  | some s =>
    have hs := call_gemini_some_not_empty attempts s h
    exact ⟨split_tweets_length_eq s 5 hs, fun t ht => mem_split_tweets_not_empty s 5 t ht⟩

/-- C2 counterexample: the articles `artA` and `artB` differ, yet when
every backend attempt fails `generate_thread_for_big_story` produces the
same output for both — the constant `FALLBACK_THREAD`, which is not
synthesized from either article's fields. -/
theorem C2_counterexample :
    artA ≠ artB ∧
      generate_thread_for_big_story fourFails artA =
        generate_thread_for_big_story fourFails artB ∧
      generate_thread_for_big_story fourFails artA = FALLBACK_THREAD :=
  ⟨by decide, rfl, rfl⟩

/-- C2 amended: when every backend attempt fails,
`generate_thread_for_big_story` returns the fixed constant
`FALLBACK_THREAD`, identical for every article — the fallback is not
synthesized from the lead article's fields. -/
theorem C2_fallback_is_constant (attempts : List (Option Str)) (big : Article)
    (h : _call_gemini_try_variants attempts = none) :
    generate_thread_for_big_story attempts big = FALLBACK_THREAD ∧
      ∀ other : Article, generate_thread_for_big_story attempts other =
        generate_thread_for_big_story attempts big := by
  unfold generate_thread_for_big_story
  rw [h]
  exact ⟨rfl, fun other => rfl⟩

theorem C2_fallback_is_constant_witness :
    _call_gemini_try_variants fourFails = none ∧
      generate_thread_for_big_story fourFails artX = FALLBACK_THREAD ∧
      ∀ other : Article, generate_thread_for_big_story fourFails other =
        generate_thread_for_big_story fourFails artX :=
  ⟨rfl, (C2_fallback_is_constant fourFails artX rfl).1,
    (C2_fallback_is_constant fourFails artX rfl).2⟩

/-- C5 counterexample: on the empty raw text the splitter returns the
empty list, not an all-filler list of the expected length 5. -/
theorem C5_counterexample : (_split_tweets_from_response [] 5).length ≠ 5 := by decide

/-- C5 amended: for every non-empty raw text and every expected count the
splitter is total and returns exactly `expected` tweets, padding any
shortfall of non-empty cleaned segments at the end with the fixed filler
tweet; the empty raw text instead short-circuits to the empty list. -/
theorem C5_split_pads_nonempty (content : Str) (expected : Nat)
    (hc : content.isEmpty = false) :
    (_split_tweets_from_response content expected).length = expected ∧
      ∀ i, (cleanedOf content).length ≤ i → i < expected →
        (_split_tweets_from_response content expected)[i]? = some fillerTweet :=
  ⟨split_tweets_length_eq content expected hc,
   fun i h1 h2 => split_tweets_getElem_filler content expected i hc h1 h2⟩

theorem C5_split_pads_nonempty_witness :
    (("hello").data.isEmpty = false) ∧
      (_split_tweets_from_response ("hello").data 5).length = 5 ∧
      ∀ i, (cleanedOf ("hello").data).length ≤ i → i < 5 →
        (_split_tweets_from_response ("hello").data 5)[i]? = some fillerTweet :=
  ⟨by decide, (C5_split_pads_nonempty ("hello").data 5 (by decide)).1,
    (C5_split_pads_nonempty ("hello").data 5 (by decide)).2⟩

/-- C7: `generate_short_tweets_for_supporting_stories` is a total function
of the oracle (never raises), returns the empty sequence when every
backend attempt fails, and always returns at most `max_tweets` tweets. -/
theorem C7_generate_supporting_soft (attempts : List (Option Str))
    (stories : List Article) (maxT : Nat) :
    (_call_gemini_try_variants attempts = none →
        generate_short_tweets_for_supporting_stories attempts stories maxT = []) ∧
      (generate_short_tweets_for_supporting_stories attempts stories maxT).length ≤ maxT := by
  constructor
  · intro h
    by_cases hg : (stories.isEmpty || maxT == 0) = true <;>
      simp [generate_short_tweets_for_supporting_stories, hg, h]
  · by_cases hg : (stories.isEmpty || maxT == 0) = true
    · simp [generate_short_tweets_for_supporting_stories, hg]
    · cases hcv : _call_gemini_try_variants attempts with
      | none => simp [generate_short_tweets_for_supporting_stories, hg, hcv]
      | some s =>
        simpa [generate_short_tweets_for_supporting_stories, hg, hcv] using
          split_tweets_length_le s maxT

theorem C7_generate_supporting_soft_witness :
    _call_gemini_try_variants fourFails = none ∧
      generate_short_tweets_for_supporting_stories fourFails [artX] 2 = [] ∧
      (generate_short_tweets_for_supporting_stories fourFails [artX] 2).length ≤ 2 :=
  ⟨rfl, (C7_generate_supporting_soft fourFails [artX] 2).1 rfl,
    (C7_generate_supporting_soft fourFails [artX] 2).2⟩

/-- C10: when the backend call succeeds with text `s`, the story list is
non-empty and the budget is positive, the supporting generator returns
exactly `max_tweets` tweets, and every position at or beyond the number of
non-empty cleaned segments holds the fixed article-independent filler
tweet. -/
theorem C10_supporting_success_padded (attempts : List (Option Str))
    (stories : List Article) (maxT : Nat) (s : Str)
    (hcv : _call_gemini_try_variants attempts = some s)
    (hst : stories.isEmpty = false) (hm : 0 < maxT) :
    (generate_short_tweets_for_supporting_stories attempts stories maxT).length = maxT ∧
      ∀ i, (cleanedOf s).length ≤ i → i < maxT →
        (generate_short_tweets_for_supporting_stories attempts stories maxT)[i]? =
          some fillerTweet := by
  have hs := call_gemini_some_not_empty attempts s hcv
  have hg : (stories.isEmpty || maxT == 0) = false := by
    simp [hst]
    omega
  constructor
  · simp [generate_short_tweets_for_supporting_stories, hg, hcv,
      split_tweets_length_eq s maxT hs]
  · intro i h1 h2
    simp only [generate_short_tweets_for_supporting_stories, hg, Bool.false_eq_true, if_false, hcv]
    exact split_tweets_getElem_filler s maxT i hs h1 h2

theorem C10_supporting_success_padded_witness :
    _call_gemini_try_variants [some demoResp] = some demoResp ∧
      ([artX] : List Article).isEmpty = false ∧ (0 : Nat) < 2 ∧
      (generate_short_tweets_for_supporting_stories [some demoResp] [artX] 2).length = 2 ∧
      ∀ i, (cleanedOf demoResp).length ≤ i → i < 2 →
        (generate_short_tweets_for_supporting_stories [some demoResp] [artX] 2)[i]? =
          some fillerTweet :=
  ⟨by decide, rfl, by decide,
    (C10_supporting_success_padded [some demoResp] [artX] 2 demoResp (by decide) rfl
      (by decide)).1,
    (C10_supporting_success_padded [some demoResp] [artX] 2 demoResp (by decide) rfl
      (by decide)).2⟩


theorem post_go_spec (b b2 : Nat → Option Str) :
    ∀ (tweets : List Str) (k start : Nat) (acc : List Str),
      k < tweets.length → b (start + k) = none →
      (∀ j, j < k → (b (start + j)).isSome = true) →
      (∀ j, j ≤ k → b2 (start + j) = b (start + j)) →
      post_thread_go b2 tweets start acc =
        (acc ++ (List.range k).filterMap (fun j => b (start + j)), some (start + k)) := by
  intro tweets
  induction tweets with
  | nil => intro k start acc hk _ _ _; simp at hk
  | cons t rest ih =>
    intro k start acc hk hfail hpre hagree
    cases k with
    | zero =>
      have hb2 : b2 start = none := by
        have h1 := hagree 0 (Nat.le_refl 0)
        simp only [Nat.add_zero] at h1 hfail
        exact h1.trans hfail
      simp [post_thread_go, hb2]
    | succ k =>
      obtain ⟨id, hid⟩ := Option.isSome_iff_exists.mp (hpre 0 (Nat.succ_pos k))
      have hid0 : b start = some id := by simpa using hid
      have hb2 : b2 start = some id := by
        have h1 := hagree 0 (Nat.zero_le _)
        simp only [Nat.add_zero] at h1
        exact h1.trans hid0
      have hrec := ih k (start + 1) (acc ++ [id])
        (by simpa using Nat.lt_of_succ_lt_succ hk)
        (by have he : start + 1 + k = start + (k + 1) := by omega
            rw [he]; exact hfail)
        (fun j hj => by
          have he : start + 1 + j = start + (j + 1) := by omega
          rw [he]; exact hpre (j + 1) (by omega))
        (fun j hj => by
          have he : start + 1 + j = start + (j + 1) := by omega
          rw [he]; exact hagree (j + 1) (by omega))
      simp only [post_thread_go, hb2]
      rw [hrec]
      rw [List.range_succ_eq_map]
      simp only [List.filterMap_cons, List.filterMap_map]
      simp only [Nat.add_zero, hid0]
      have hcomp : ((fun j => b (start + j)) ∘ Nat.succ) = (fun j => b (start + 1 + j)) := by
        funext j
        simp only [Function.comp]
        congr 1
        omega
      rw [hcomp]
      simp only [Prod.mk.injEq]
      constructor
      · simp
      · congr 1
        omega

theorem filterMap_range_length (b : Nat → Option Str) (k : Nat)
    (h : ∀ j, j < k → (b j).isSome = true) :
    ((List.range k).filterMap b).length = k := by
  induction k with
  | zero => simp
  | succ k ih =>
    rw [List.range_succ, List.filterMap_append, List.length_append]
    obtain ⟨id, hid⟩ := Option.isSome_iff_exists.mp (h k (by omega))
    simp [hid, ih (fun j hj => h j (by omega))]

theorem run_short_eq_post_go (b : Nat → Option Str) :
    ∀ (tweets : List Str) (i : Nat) (acc : List Str),
      run_post_short_loop b tweets i acc = post_thread_go b tweets i acc := by
  intro tweets
  induction tweets with
  | nil => intro i acc; rfl
  | cons t rest ih =>
    intro i acc
    simp only [run_post_short_loop, post_thread_go]
    cases b i <;> simp [ih]

/-- C3: if the publishing backend succeeds on every call before index `i`
and fails on the call at index `i` of a non-empty tweet list, then
`post_thread` surfaces the failure as the error index `i` together with
the `i` ids already published (which remain published — there is no
rollback), and it never attempts a call after index `i`: any oracle `b2`
agreeing with `b` up to index `i` produces this same outcome. -/
theorem C3_post_thread_stops_at_failure (b b2 : Nat → Option Str)
    (tweets : List Str) (i : Nat)
    (hne : tweets ≠ [])
    (hi : i < tweets.length)
    (hfail : b i = none)
    (hpre : ∀ j, j < i → (b j).isSome = true)
    (hagree : ∀ j, j ≤ i → b2 j = b j) :
    post_thread b2 tweets = some ((List.range i).filterMap b, some i) ∧
      ((List.range i).filterMap b).length = i := by
  constructor
  · have hemp : tweets.isEmpty = false := by
      cases tweets with
      | nil => exact absurd rfl hne
      | cons t rest => rfl
    have hspec := post_go_spec b b2 tweets i 0 [] hi (by simpa using hfail)
      (fun j hj => by simpa using hpre j hj)
      (fun j hj => by simpa using hagree j hj)
    simp only [post_thread, hemp, Bool.false_eq_true, if_false]
    rw [hspec]
    simp
  · exact filterMap_range_length b i hpre

theorem C3_post_thread_stops_at_failure_witness :
    (([("a").data, ("b").data, ("c").data] : List Str) ≠ []) ∧
      (1 : Nat) < ([("a").data, ("b").data, ("c").data] : List Str).length ∧
      bFail1 1 = none ∧
      (∀ j, j < 1 → (bFail1 j).isSome = true) ∧
      (∀ j, j ≤ 1 → bFail1Alt j = bFail1 j) ∧
      post_thread bFail1Alt [("a").data, ("b").data, ("c").data] =
        some ((List.range 1).filterMap bFail1, some 1) ∧
      ((List.range 1).filterMap bFail1).length = 1 :=
  ⟨by decide, by decide, by decide, by decide, by decide,
    (C3_post_thread_stops_at_failure bFail1 bFail1Alt [("a").data, ("b").data, ("c").data] 1
      (by decide) (by decide) (by decide) (by decide) (by decide)).1,
    (C3_post_thread_stops_at_failure bFail1 bFail1Alt [("a").data, ("b").data, ("c").data] 1
      (by decide) (by decide) (by decide) (by decide) (by decide)).2⟩

/-- C4 counterexample: on a 3-tweet input whose second call (index 1)
fails, the standalone posting loop of `main.run` returns only the single
id of index 0 and stops with failure index 1 — it does not attempt index
2 (an oracle differing only at call 2 gives the identical outcome) and
does not return two successful ids as the claim requires. -/
theorem C4_counterexample :
    run_post_short_loop bFail1 [("a").data, ("b").data, ("c").data] 0 [] =
        ([['t']], some 1) ∧
      run_post_short_loop bFail1Alt [("a").data, ("b").data, ("c").data] 0 [] =
        ([['t']], some 1) ∧
      ([(['t'] : Str)]).length ≠ 2 :=
  ⟨by decide, by decide, by decide⟩

/-- C4 amended: the standalone posting loop of `main.run` posts each short
tweet independently (no reply linkage) but has no per-tweet error
handling: when the backend succeeds before index `i` and fails at index
`i`, the loop aborts with the `i` ids already posted, attempts nothing
after index `i` (any oracle agreeing up to `i` gives the same outcome),
and the failure propagates out of the loop, ending the run. -/
theorem C4_standalone_loop_aborts (b b2 : Nat → Option Str)
    (tweets : List Str) (i : Nat)
    (hi : i < tweets.length)
    (hfail : b i = none)
    (hpre : ∀ j, j < i → (b j).isSome = true)
    (hagree : ∀ j, j ≤ i → b2 j = b j) :
    run_post_short_loop b2 tweets 0 [] = ((List.range i).filterMap b, some i) ∧
      ((List.range i).filterMap b).length = i := by
  constructor
  · rw [run_short_eq_post_go]
    have hspec := post_go_spec b b2 tweets i 0 [] hi (by simpa using hfail)
      (fun j hj => by simpa using hpre j hj)
      (fun j hj => by simpa using hagree j hj)
    rw [hspec]
    simp
  · exact filterMap_range_length b i hpre

theorem C4_standalone_loop_aborts_witness :
    (1 : Nat) < ([("a").data, ("b").data, ("c").data] : List Str).length ∧
      bFail1 1 = none ∧
      (∀ j, j < 1 → (bFail1 j).isSome = true) ∧
      (∀ j, j ≤ 1 → bFail1Alt j = bFail1 j) ∧
      run_post_short_loop bFail1Alt [("a").data, ("b").data, ("c").data] 0 [] =
        ((List.range 1).filterMap bFail1, some 1) ∧
      ((List.range 1).filterMap bFail1).length = 1 :=
  ⟨by decide, by decide, by decide, by decide,
    (C4_standalone_loop_aborts bFail1 bFail1Alt [("a").data, ("b").data, ("c").data] 1
      (by decide) (by decide) (by decide) (by decide)).1,
    (C4_standalone_loop_aborts bFail1 bFail1Alt [("a").data, ("b").data, ("c").data] 1
      (by decide) (by decide) (by decide) (by decide)).2⟩

theorem mem_pickSupporting (rest : List Article) :
    ∀ (supp : List Article) (seen : List Str) (a : Article),
      a ∈ pickSupporting rest supp seen → a ∈ supp ∨ a ∈ rest := by
  induction rest with
  | nil =>
    intro supp seen a h
    left
    simpa [pickSupporting] using h
  | cons x rest ih =>
    intro supp seen a h
    simp only [pickSupporting] at h
    split_ifs at h with h1 h2 h3 h4
    · left; exact h
    · rcases ih supp seen a h with hs | hr
      · left; exact hs
      · right; exact List.mem_cons_of_mem x hr
    · rcases ih (supp ++ [x]) (x.sourceName :: seen) a h with hs | hr
      · rcases List.mem_append.mp hs with hs1 | hs1
        · left; exact hs1
        · right; simp at hs1; simp [hs1]
      · right; exact List.mem_cons_of_mem x hr
    · rcases ih (supp ++ [x]) seen a h with hs | hr
      · rcases List.mem_append.mp hs with hs1 | hs1
        · left; exact hs1
        · right; simp at hs1; simp [hs1]
      · right; exact List.mem_cons_of_mem x hr
    · rcases ih supp seen a h with hs | hr
      · left; exact hs
      · right; exact List.mem_cons_of_mem x hr

/-- C6 amended: on every non-empty list of pairwise-distinct articles the
selector succeeds, the chosen lead is an input article whose `publishedAt`
string is lexicographically maximal (so descending ISO-8601 order, with
empty timestamps never beating non-empty ones), and the lead does not
occur among the supporting stories. -/
theorem C6_selector_lead_max (articles : List Article)
    (hne : articles ≠ []) (hnd : articles.Nodup) : selGood articles := by
  have hperm := List.perm_insertionSort pubGE articles
  have hsorted := List.sorted_insertionSort pubGE articles
  unfold selGood
  cases hs : List.insertionSort pubGE articles with
  | nil =>
    rw [hs] at hperm
    exact absurd (hperm.symm.eq_nil) hne
  | cons big rest =>
    rw [hs] at hperm hsorted
    simp only [select_big_and_supporting_stories, hs]
    refine ⟨?_, ?_, ?_⟩
    · exact hperm.subset (List.mem_cons_self big rest)
    · intro a ha
      have ha2 : a ∈ big :: rest := hperm.mem_iff.mpr ha
      rcases List.mem_cons.mp ha2 with rfl | hr
      · exact le_refl _
      · exact List.rel_of_sorted_cons hsorted a hr
    · have hnodup2 : (big :: rest).Nodup := hperm.nodup_iff.mpr hnd
      have hbig : big ∉ rest := (List.nodup_cons.mp hnodup2).1
      by_cases hsupp : (pickSupporting rest [] [big.sourceName]).isEmpty = true
      · simp only [hsupp, if_true]
        intro hmem
        exact hbig (List.take_subset 2 rest hmem)
      · simp only [hsupp, Bool.false_eq_true, if_false]
        intro hmem
        rcases mem_pickSupporting rest [] [big.sourceName] big hmem with hs1 | hs1
        · simp at hs1
        · exact hbig hs1

theorem C6_selector_lead_max_witness :
    (([artA, artB] : List Article) ≠ []) ∧ ([artA, artB] : List Article).Nodup ∧
      selGood [artA, artB] ∧
      (select_big_and_supporting_stories [artA, artB]).map (fun p => p.1.title) =
        some ("B").data :=
  ⟨by decide, by decide, C6_selector_lead_max [artA, artB] (by decide) (by decide), by decide⟩

/-- C6 counterexample: on a non-empty input containing the same article
value twice, the selected lead occurs in the supporting list as well, so
`lead is absent from supporting` fails for duplicate-containing inputs. -/
theorem C6_counterexample :
    select_big_and_supporting_stories [artX, artX] = some (artX, [artX]) ∧
      artX ∈ [artX] :=
  ⟨by decide, by decide⟩

theorem rstrip_length_le (l : Str) : (rstrip l).length ≤ l.length :=
  ( List.rdropWhile_prefix isPySpace l).length_le

/-- C9 amended: when the tag-stripped, whitespace-stripped text is longer
than the limit, the truncated output ends with `...` and its length is at
most the limit — not always exactly the limit, because the cut prefix is
right-stripped before the dots are appended. -/
theorem C9_truncate_bounded (text : Str) (limit : Nat) (h3 : 3 ≤ limit)
    (hlong : limit < (pyStrip (stripTags text)).length) :
    (truncate_to_limit text limit).length ≤ limit ∧
      dots <:+ truncate_to_limit text limit := by
  have hnot : ¬ (pyStrip (stripTags text)).length ≤ limit := by omega
  simp only [truncate_to_limit, hnot, if_false]
  constructor
  · rw [List.length_append]
    have h1 : (rstrip ((pyStrip (stripTags text)).take (limit - 3))).length ≤ limit - 3 := by
      calc (rstrip ((pyStrip (stripTags text)).take (limit - 3))).length
          ≤ ((pyStrip (stripTags text)).take (limit - 3)).length :=
            rstrip_length_le _
        _ ≤ limit - 3 := by simp [List.length_take]
    have h2 : dots.length = 3 := rfl
    omega
  · exact List.suffix_append _ dots

set_option maxRecDepth 20000 in
/-- C9 counterexample: a 307-character input whose 257th character is a
space; `truncate_to_limit` right-strips the cut prefix, so the output has
length 259, not the limit 260 the claim requires. -/
theorem C9_counterexample :
    MAX_TWEET_CHARS < (pyStrip (stripTags demoLong)).length ∧
      (truncate_to_limit demoLong MAX_TWEET_CHARS).length ≠ MAX_TWEET_CHARS :=
  ⟨by decide, by decide⟩

set_option maxRecDepth 20000 in
theorem C9_truncate_bounded_witness :
    (3 ≤ MAX_TWEET_CHARS) ∧
      MAX_TWEET_CHARS < (pyStrip (stripTags demoLong)).length ∧
      (truncate_to_limit demoLong MAX_TWEET_CHARS).length ≤ MAX_TWEET_CHARS ∧
      dots <:+ truncate_to_limit demoLong MAX_TWEET_CHARS :=
  ⟨by decide, by decide,
    (C9_truncate_bounded demoLong MAX_TWEET_CHARS (by decide) (by decide)).1,
    (C9_truncate_bounded demoLong MAX_TWEET_CHARS (by decide) (by decide)).2⟩

theorem lstrip_sub (l : Str) : lstrip l ⊆ l := (List.dropWhile_suffix isPySpace).subset

theorem rstrip_sub (l : Str) : rstrip l ⊆ l := ( List.rdropWhile_prefix isPySpace l).subset

theorem pyStrip_sub (l : Str) : pyStrip l ⊆ l := by
  intro c hc
  exact lstrip_sub l (rstrip_sub (lstrip l) hc)

theorem lstrip_head (l : Str) (c : Char) (h : (lstrip l).head? = some c) :
    isPySpace c = false := by
  induction l with
  | nil => simp [lstrip] at h
  | cons x rest ih =>
    by_cases hx : isPySpace x = true
    · exact ih (by simpa [lstrip, List.dropWhile_cons, hx] using h)
    · have : x = c := by simpa [lstrip, List.dropWhile_cons, hx] using h
      simp [← this, hx]

theorem lstrip_eq_self_of_head (l : Str)
    (h : ∀ c, l.head? = some c → isPySpace c = false) : lstrip l = l := by
  cases l with
  | nil => rfl
  | cons x rest => simp [lstrip, List.dropWhile_cons, h x rfl]

theorem head?_of_prefixed (l m : Str) (h : l <+: m) (hne : l ≠ []) : m.head? = l.head? := by
  obtain ⟨t, rfl⟩ := h
  cases l with
  | nil => exact absurd rfl hne
  | cons x u => rfl

theorem pyStrip_idem (l : Str) : pyStrip (pyStrip l) = pyStrip l := by
  unfold pyStrip
  have h1 : lstrip (rstrip (lstrip l)) = rstrip (lstrip l) := by
    apply lstrip_eq_self_of_head
    intro c hc
    have hne : rstrip (lstrip l) ≠ [] := by
      intro hnil
      rw [hnil] at hc
      simp at hc
    have := head?_of_prefixed _ _ ( List.rdropWhile_prefix isPySpace (lstrip l)) hne
    exact lstrip_head l c (this ▸ hc)
  rw [h1]
  exact List.rdropWhile_idempotent isPySpace (lstrip l)

theorem stripped_head (l : Str) (hS : pyStrip l = l) (c : Char) (h : l.head? = some c) :
    isPySpace c = false := by
  have hne : l ≠ [] := by intro hnil; rw [hnil] at h; simp at h
  have hpre : l <+: lstrip l := by
    nth_rewrite 1 [← hS]
    exact List.rdropWhile_prefix isPySpace (lstrip l)
  have := head?_of_prefixed _ _ hpre hne
  exact lstrip_head l c (this ▸ h)

theorem stripTagsGo_eq_self (l : Str) (h : '<' ∉ l) : stripTagsGo l [] = l := by
  induction l with
  | nil => rfl
  | cons c rest ih =>
    have hc : ¬c = '<' := by rintro rfl; exact h (List.mem_cons_self _ _)
    have hrest : '<' ∉ rest := fun hr => h (List.mem_cons_of_mem _ hr)
    simp only [stripTagsGo, List.isEmpty_nil, if_true, hc, if_false]
    rw [ih hrest]

theorem stripTags_eq_self (l : Str) (h : '<' ∉ l) : stripTags l = l :=
  stripTagsGo_eq_self l h

theorem matchTweetLabel_suffix (l r : Str) (h : matchTweetLabel l = some r) : r <:+ l := by
  match l with
  | [] => simp [matchTweetLabel] at h
  | [c1] => simp [matchTweetLabel] at h
  | [c1, c2] => simp [matchTweetLabel] at h
  | [c1, c2, c3] => simp [matchTweetLabel] at h
  | [c1, c2, c3, c4] => simp [matchTweetLabel] at h
  | c1 :: c2 :: c3 :: c4 :: c5 :: rest =>
    simp only [matchTweetLabel] at h
    split_ifs at h with hcond hlen
    rcases hds : (rest.dropWhile isPySpace).dropWhile Char.isDigit with _ | ⟨d, r2⟩
    · rw [hds] at h; simp at h
    rw [hds] at h
    dsimp only at h
    split_ifs at h with hd
    have hr : r = r2.dropWhile isPySpace := by simpa using h.symm
    have s1 : r <:+ r2 := hr ▸ List.dropWhile_suffix isPySpace
    have s2 : r2 <:+ (rest.dropWhile isPySpace).dropWhile Char.isDigit := by
      rw [hds]; exact List.suffix_cons d r2
    have s3 : (rest.dropWhile isPySpace).dropWhile Char.isDigit <:+
        rest.dropWhile isPySpace := List.dropWhile_suffix Char.isDigit
    have s4 : rest.dropWhile isPySpace <:+ rest := List.dropWhile_suffix isPySpace
    have s5 : rest <:+ c1 :: c2 :: c3 :: c4 :: c5 :: rest := by
      refine ⟨[c1, c2, c3, c4, c5], rfl⟩
    exact ((((s1.trans s2).trans s3).trans s4).trans s5)

theorem stripTweetLabel_suffix (l : Str) : stripTweetLabel l <:+ l := by
  unfold stripTweetLabel
  cases h : matchTweetLabel l with
  | none => exact List.suffix_refl l
  | some r => exact matchTweetLabel_suffix l r h

theorem matchNumLabel_suffix (l r : Str) (h : matchNumLabel l = some r) : r <:+ l := by
  simp only [matchNumLabel] at h
  split_ifs at h with hlen
  rcases hds : l.dropWhile Char.isDigit with _ | ⟨d, r2⟩
  · rw [hds] at h; simp at h
  rw [hds] at h
  dsimp only at h
  split_ifs at h with hd
  have hr : r = r2.dropWhile isPySpace := by simpa using h.symm
  have s1 : r <:+ r2 := hr ▸ List.dropWhile_suffix isPySpace
  have s2 : r2 <:+ l.dropWhile Char.isDigit := by
    rw [hds]; exact List.suffix_cons d r2
  have s3 : l.dropWhile Char.isDigit <:+ l := List.dropWhile_suffix Char.isDigit
  exact (s1.trans s2).trans s3

theorem stripNumLabel_suffix (l : Str) : stripNumLabel l <:+ l := by
  unfold stripNumLabel
  cases h : matchNumLabel l with
  | none => exact List.suffix_refl l
  | some r => exact matchNumLabel_suffix l r h

theorem collapseGo_mem (l : Str) :
    ∀ (b : Bool) (c : Char), c ∈ collapseGo l b → c ∈ l ∨ c = ' ' := by
  induction l with
  | nil => intro b c h; simp [collapseGo] at h
  | cons x rest ih =>
    intro b c h
    by_cases hx : isPySpace x = true
    · cases b with
      | true =>
        simp only [collapseGo, hx, if_true] at h
        rcases ih true c h with h1 | h1
        · exact Or.inl (List.mem_cons_of_mem x h1)
        · exact Or.inr h1
      | false =>
        simp only [collapseGo, hx, if_true, if_false] at h
        rcases List.mem_cons.mp h with rfl | h1
        · exact Or.inr rfl
        · rcases ih true c h1 with h2 | h2
          · exact Or.inl (List.mem_cons_of_mem x h2)
          · exact Or.inr h2
    · simp only [collapseGo, hx, Bool.false_eq_true, if_false] at h
      rcases List.mem_cons.mp h with rfl | h1
      · exact Or.inl (List.mem_cons_self c rest)
      · rcases ih false c h1 with h2 | h2
        · exact Or.inl (List.mem_cons_of_mem x h2)
        · exact Or.inr h2

theorem collapseGo_wsOnly (l : Str) :
    ∀ (b : Bool) (c : Char), c ∈ collapseGo l b → isPySpace c = true → c = ' ' := by
  induction l with
  | nil => intro b c h; simp [collapseGo] at h
  | cons x rest ih =>
    intro b c h hws
    by_cases hx : isPySpace x = true
    · cases b with
      | true =>
        simp only [collapseGo, hx, if_true] at h
        exact ih true c h hws
      | false =>
        simp only [collapseGo, hx, if_true, if_false] at h
        rcases List.mem_cons.mp h with rfl | h1
        · rfl
        · exact ih true c h1 hws
    · simp only [collapseGo, hx, Bool.false_eq_true, if_false] at h
      rcases List.mem_cons.mp h with rfl | h1
      · exact absurd hws (by simp [hx])
      · exact ih false c h1 hws

theorem collapseGo_true_head (l : Str) (c : Char)
    (h : (collapseGo l true).head? = some c) : isPySpace c = false := by
  induction l with
  | nil => simp [collapseGo] at h
  | cons x rest ih =>
    by_cases hx : isPySpace x = true
    · exact ih (by simpa [collapseGo, hx] using h)
    · have : x = c := by simpa [collapseGo, hx] using h
      rw [← this]
      simpa using hx

theorem collapseGo_noAdj (l : Str) : ∀ b : Bool, noAdjWs (collapseGo l b) := by
  induction l with
  | nil => intro b; simp [collapseGo, noAdjWs]
  | cons x rest ih =>
    intro b
    by_cases hx : isPySpace x = true
    · cases b with
      | true => simpa [collapseGo, hx] using ih true
      | false =>
        simp only [collapseGo, hx, if_true, Bool.false_eq_true, if_false]
        rw [noAdjWs, List.chain'_cons']
        refine ⟨?_, ih true⟩
        intro y hy
        intro hcon
        have := collapseGo_true_head rest y hy
        simp [this] at hcon
    · simp only [collapseGo, hx, Bool.false_eq_true, if_false]
      rw [noAdjWs, List.chain'_cons']
      refine ⟨?_, ih false⟩
      intro y hy hcon
      simp [hx] at hcon

theorem collapseGo_fix (l : Str) (hws : wsOnlySpace l) (hadj : noAdjWs l) :
    collapseGo l false = l ∧
      ((∀ c, l.head? = some c → isPySpace c = false) → collapseGo l true = l) := by
  induction l with
  | nil => exact ⟨rfl, fun _ => rfl⟩
  | cons x rest ih =>
    have hws2 : wsOnlySpace rest := fun c hc hw => hws c (List.mem_cons_of_mem x hc) hw
    have hadj2 : noAdjWs rest := (List.chain'_cons'.mp hadj).2
    have ihs := ih hws2 hadj2
    by_cases hx : isPySpace x = true
    · have hxs : x = ' ' := hws x (List.mem_cons_self x rest) hx
      have hhead : ∀ c, rest.head? = some c → isPySpace c = false := by
        intro c hc
        have hR := (List.chain'_cons'.mp hadj).1 c hc
        by_cases hcw : isPySpace c = true
        · exact absurd ⟨hx, hcw⟩ hR
        · simpa using hcw
      constructor
      · simp only [collapseGo, hx, if_true, Bool.false_eq_true, if_false]
        rw [ihs.2 hhead, hxs]
      · intro hfc
        exact absurd (hfc x rfl) (by simp [hx])
    · constructor
      · simp only [collapseGo, hx, Bool.false_eq_true, if_false]
        rw [ihs.1]
      · intro _
        simp only [collapseGo, hx, Bool.false_eq_true, if_false]
        rw [ihs.1]

theorem clean_spaces_mem (l : Str) (c : Char) (h : c ∈ _clean_spaces l) :
    c ∈ l ∨ c = ' ' := by
  by_cases hl : l.isEmpty = true
  · simp [_clean_spaces, hl] at h
  · simp only [_clean_spaces, hl, Bool.false_eq_true, if_false] at h
    exact collapseGo_mem l false c (pyStrip_sub _ h)

theorem truncate_mem (t : Str) (limit : Nat) (c : Char)
    (h : c ∈ truncate_to_limit t limit) :
    c ∈ pyStrip (stripTags t) ∨ c ∈ dots := by
  by_cases hlen : (pyStrip (stripTags t)).length ≤ limit
  · simp only [truncate_to_limit, hlen, if_true] at h
    exact Or.inl h
  · simp only [truncate_to_limit, hlen, if_false] at h
    rcases List.mem_append.mp h with h1 | h1
    · exact Or.inl (List.take_subset _ _ (rstrip_sub _ h1))
    · exact Or.inr h1

theorem rstrip_append_dots (l : Str) : rstrip (l ++ dots) = l ++ dots := by
  have hd : dots = ['.', '.'] ++ ['.'] := rfl
  rw [hd, ← List.append_assoc]
  exact List.rdropWhile_concat_neg isPySpace (l ++ ['.', '.']) '.' (by decide)

theorem noAdjWs_dots : noAdjWs dots := by
  rw [noAdjWs]
  refine List.chain'_cons.mpr ⟨by decide, ?_⟩
  refine List.chain'_cons.mpr ⟨by decide, ?_⟩
  exact List.chain'_singleton '.'

theorem noAdjWs_append_dots (l : Str) (h : noAdjWs l) : noAdjWs (l ++ dots) := by
  rw [noAdjWs, List.chain'_append]
  refine ⟨h, noAdjWs_dots, ?_⟩
  intro a _ b hb hcon
  have hb2 : b = '.' := by
    simp [dots] at hb
    exact hb.symm
  rw [hb2] at hcon
  exact absurd hcon.2 (by decide)

theorem truncate_length_le (t : Str) :
    (truncate_to_limit t MAX_TWEET_CHARS).length ≤ MAX_TWEET_CHARS := by
  by_cases hlen : (pyStrip (stripTags t)).length ≤ MAX_TWEET_CHARS
  · simp only [truncate_to_limit, hlen, if_true]
  · simp only [truncate_to_limit, hlen, if_false, List.length_append]
    have h1 : (rstrip ((pyStrip (stripTags t)).take (MAX_TWEET_CHARS - 3))).length ≤
        MAX_TWEET_CHARS - 3 := by
      calc (rstrip ((pyStrip (stripTags t)).take (MAX_TWEET_CHARS - 3))).length
          ≤ ((pyStrip (stripTags t)).take (MAX_TWEET_CHARS - 3)).length := rstrip_length_le _
        _ ≤ MAX_TWEET_CHARS - 3 := by simp [List.length_take]
    have h2 : dots.length = 3 := rfl
    have h3 : MAX_TWEET_CHARS = 260 := rfl
    rw [h2]
    omega

theorem clean_fixed (y : Str)
    (hT : stripTags y = y) (hS : pyStrip y = y)
    (htp : stripTweetLabel y = y) (hnp : stripNumLabel y = y)
    (hws : wsOnlySpace y) (hadj : noAdjWs y)
    (hlen : y.length ≤ MAX_TWEET_CHARS) :
    cleanCandidate y = y := by
  have hcs : _clean_spaces y = y := by
    by_cases hy : y.isEmpty = true
    · have : y = [] := by
        cases y with
        | nil => rfl
        | cons a u => simp at hy
      rw [this]
      rfl
    · have hcg := (collapseGo_fix y hws hadj).1
      simp only [_clean_spaces, hy, Bool.false_eq_true, if_false]
      rw [hcg, hS]
  unfold cleanCandidate
  rw [hS, htp, hnp, hcs]
  simp only [truncate_to_limit, hT, hS, hlen, if_true]

/-- C8 counterexample: `cleanCandidate` is not idempotent.  On `a <b> c`
the tag strip (which runs after whitespace collapsing) merges two spaces,
so a second clean collapses them; on `Tweet 1: Tweet 2: hi` each clean
strips only one enumeration label. -/
theorem C8_counterexample :
    cleanCandidate (cleanCandidate ("a <b> c").data) ≠ cleanCandidate ("a <b> c").data ∧
      cleanCandidate (cleanCandidate ("Tweet 1: Tweet 2: hi").data) ≠
        cleanCandidate ("Tweet 1: Tweet 2: hi").data :=
  ⟨by decide, by decide⟩

/-- C8 amended: `cleanCandidate` is idempotent on every input that
contains no `<` character (so tag stripping cannot merge whitespace) and
whose cleaned form does not itself begin with a `Tweet <n>:` or `<n>.`
enumeration label. -/
theorem C8_clean_conditionally_idempotent (x : Str)
    (h1 : '<' ∉ x)
    (h2 : stripTweetLabel (cleanCandidate x) = cleanCandidate x)
    (h3 : stripNumLabel (cleanCandidate x) = cleanCandidate x) :
    cleanCandidate (cleanCandidate x) = cleanCandidate x := by
  set v := stripNumLabel (stripTweetLabel (pyStrip x)) with hv
  set z := _clean_spaces v with hz
  have hyx : cleanCandidate x = truncate_to_limit z MAX_TWEET_CHARS := rfl
  have hvlt : '<' ∉ v := fun hm =>
    h1 (pyStrip_sub x ((stripTweetLabel_suffix (pyStrip x)).subset
      ((stripNumLabel_suffix (stripTweetLabel (pyStrip x))).subset hm)))
  have hzlt : '<' ∉ z := by
    intro hm
    rcases clean_spaces_mem v '<' hm with hine | heq
    · exact hvlt hine
    · exact absurd heq (by decide)
  by_cases hznil : z = []
  · have hx0 : cleanCandidate x = [] := by
      rw [hyx, hznil]
      decide
    rw [hx0]
    decide
  · have hvne : v.isEmpty = false := by
      by_cases hve : v.isEmpty = true
      · exact absurd (by rw [hz]; simp [_clean_spaces, hve]) hznil
      · simpa using hve
    have hzdef : z = pyStrip (collapseGo v false) := by
      rw [hz]
      simp [_clean_spaces, hvne]
    have hSz : pyStrip z = z := by rw [hzdef]; exact pyStrip_idem _
    have hwsz : wsOnlySpace z := by
      intro c hc hw
      rw [hzdef] at hc
      exact collapseGo_wsOnly v false c (pyStrip_sub _ hc) hw
    have hadjz : noAdjWs z := by
      rw [hzdef]
      have h0 : noAdjWs (collapseGo v false) := collapseGo_noAdj v false
      have h1' : noAdjWs (lstrip (collapseGo v false)) :=
        List.Chain'.suffix h0 (List.dropWhile_suffix isPySpace)
      exact List.Chain'.prefix h1' ( List.rdropWhile_prefix isPySpace _)
    have hTz : stripTags z = z := stripTags_eq_self z hzlt
    have hyform : cleanCandidate x = if z.length ≤ MAX_TWEET_CHARS then z
        else rstrip (z.take (MAX_TWEET_CHARS - 3)) ++ dots := by
      rw [hyx]
      simp only [truncate_to_limit, hTz, hSz]
    by_cases hlen : z.length ≤ MAX_TWEET_CHARS
    · have hy : cleanCandidate x = z := by rw [hyform]; simp [hlen]
      exact clean_fixed (cleanCandidate x) (by rw [hy]; exact hTz) (by rw [hy]; exact hSz)
        h2 h3 (by rw [hy]; exact hwsz) (by rw [hy]; exact hadjz) (by rw [hy]; exact hlen)
    · have hy : cleanCandidate x = rstrip (z.take (MAX_TWEET_CHARS - 3)) ++ dots := by
        rw [hyform]
        simp [hlen]
      have hApre : rstrip (z.take (MAX_TWEET_CHARS - 3)) <+: z :=
        ( List.rdropWhile_prefix isPySpace _).trans ( List.take_prefix _ z)
      have hylt : '<' ∉ cleanCandidate x := by
        rw [hy]
        intro hm
        rcases List.mem_append.mp hm with hm1 | hm1
        · exact hzlt (hApre.subset hm1)
        · simp [dots] at hm1
      have hT : stripTags (cleanCandidate x) = cleanCandidate x := stripTags_eq_self _ hylt
      have hws : wsOnlySpace (cleanCandidate x) := by
        rw [hy]
        intro c hc hw
        rcases List.mem_append.mp hc with hm1 | hm1
        · exact hwsz c (hApre.subset hm1) hw
        · rcases (by simpa [dots] using hm1 : c = '.' ∨ c = '.' ∨ c = '.') with he | he | he <;>
            (rw [he] at hw; exact absurd hw (by decide))
      have hadj : noAdjWs (cleanCandidate x) := by
        rw [hy]
        exact noAdjWs_append_dots _ ( List.Chain'.prefix hadjz hApre)
      have hS : pyStrip (cleanCandidate x) = cleanCandidate x := by
        rw [hy]
        have hr : rstrip (rstrip (z.take (MAX_TWEET_CHARS - 3)) ++ dots) =
            rstrip (z.take (MAX_TWEET_CHARS - 3)) ++ dots := rstrip_append_dots _
        have hl : lstrip (rstrip (z.take (MAX_TWEET_CHARS - 3)) ++ dots) =
            rstrip (z.take (MAX_TWEET_CHARS - 3)) ++ dots := by
          apply lstrip_eq_self_of_head
          intro c hc
          cases hAe : rstrip (z.take (MAX_TWEET_CHARS - 3)) with
          | nil =>
            rw [hAe] at hc
            simp only [List.nil_append] at hc
            have : c = '.' := by simpa [dots] using hc.symm
            rw [this]
            decide
          | cons a t =>
            rw [hAe] at hc
            have hca : c = a := by simpa using hc.symm
            have hhz : z.head? = some a := by
              have hne : rstrip (z.take (MAX_TWEET_CHARS - 3)) ≠ [] := by simp [hAe]
              have := head?_of_prefixed _ z hApre hne
              rw [hAe] at this
              simpa using this
            rw [hca]
            exact stripped_head z hSz a hhz
        unfold pyStrip
        rw [hl, hr]
      have hlenY : (cleanCandidate x).length ≤ MAX_TWEET_CHARS := by
        rw [hyx]
        exact truncate_length_le z
      exact clean_fixed (cleanCandidate x) hT hS h2 h3 hws hadj hlenY

theorem C8_clean_conditionally_idempotent_witness :
    ('<' ∉ ("Tweet 1:   hello   world!!").data) ∧
      stripTweetLabel (cleanCandidate ("Tweet 1:   hello   world!!").data) =
        cleanCandidate ("Tweet 1:   hello   world!!").data ∧
      stripNumLabel (cleanCandidate ("Tweet 1:   hello   world!!").data) =
        cleanCandidate ("Tweet 1:   hello   world!!").data ∧
      cleanCandidate (cleanCandidate ("Tweet 1:   hello   world!!").data) =
        cleanCandidate ("Tweet 1:   hello   world!!").data :=
  ⟨by decide, by decide, by decide,
    C8_clean_conditionally_idempotent ("Tweet 1:   hello   world!!").data
      (by decide) (by decide) (by decide)⟩
